import Mathlib

/-!
# Verification of `osmosis2geojson.js`

A shallow embedding of the line-driven parser in `src/osmosis2geojson.js`
(and its near-duplicate `src/unnamed/part_000`), which converts the Osmosis
polygon filter format into a GeoJSON `Feature`.

Modelling conventions:
* JavaScript numbers produced by `Number.parseFloat` are modelled by `JNum`:
  `NaN`, signed infinity, or a finite value.  Every finite value this program
  produces comes from a decimal literal, so finite values are represented
  exactly as scaled decimals `num / 10 ^ scale` (`Dec`), with the rational
  value available as `Dec.val`; IEEE-754 binary rounding and overflow to
  infinity are not modelled.
* `Number.prototype.toFixed(12)` output strings are modelled by `FixedRep`
  values that are equal exactly when the produced strings are equal.
* Lines are plain `String`s; the line supply is a `List String`.
* A JavaScript runtime exception (e.g. calling `.push` on `undefined` when no
  ring is open) and an explicit `null` return from an examiner both make the
  whole parse produce no feature; each partial operation returns `Option`,
  with `none` for either outcome.
-/

/-- An exact decimal number `num / 10 ^ scale`. -/
structure Dec where
  num : ℤ
  scale : ℕ
deriving DecidableEq, Repr

/-- The rational value of a scaled decimal. -/
def Dec.val (d : Dec) : ℚ := (d.num : ℚ) / 10 ^ d.scale

/-- JavaScript number as produced by `Number.parseFloat`. -/
inductive JNum where
  | nan : JNum
  | inf (neg : Bool) : JNum
  | fin (d : Dec) : JNum
deriving DecidableEq, Repr

instance : Inhabited JNum := ⟨JNum.nan⟩

/-- A `(longitude, latitude)` pair. -/
abbrev Position := JNum × JNum

/-- A ring: ordered list of positions. -/
abbrev GeoRing := List Position

/-- Character-level test used for `parseFloat`'s leading-whitespace skip. -/
def jsWhite (c : Char) : Bool :=
  c = ' ' ∨ c = '\t' ∨ c = '\n' ∨ c = '\r'

/-- Decimal digit test. -/
def decDigit (c : Char) : Bool := '0' ≤ c ∧ c ≤ '9'

/-- Numeric value of the digit characters, most significant first. -/
def digitsVal (ds : List Char) : ℕ :=
  ds.foldl (fun n c => n * 10 + (c.toNat - '0'.toNat)) 0

/-- Longest leading run of decimal digits, and the remaining characters. -/
def takeDigits (cs : List Char) : List Char × List Char :=
  (cs.takeWhile decDigit, cs.dropWhile decDigit)

/-- Optional exponent part `e`/`E` sign? digits; ignored (per the longest
valid prefix rule of `parseFloat`) when no digit follows. -/
def readExponent (cs : List Char) : ℤ :=
  match cs with
  | 'e' :: rest => readSignedDigits rest
  | 'E' :: rest => readSignedDigits rest
  | _ => 0
where
  readSignedDigits (cs : List Char) : ℤ :=
    match cs with
    | '-' :: rest =>
        let ds := (takeDigits rest).1
        if ds = [] then 0 else -(digitsVal ds : ℤ)
    | '+' :: rest =>
        let ds := (takeDigits rest).1
        if ds = [] then 0 else (digitsVal ds : ℤ)
    | rest =>
        let ds := (takeDigits rest).1
        if ds = [] then 0 else (digitsVal ds : ℤ)

/-- The unsigned decimal literal at the head of `cs`
(`digits [. digits] [exponent]` or `. digits [exponent]`) as a scaled
decimal; `none` when no digit is present, mirroring `parseFloat` returning
`NaN`. -/
def readUnsignedDecimal (cs : List Char) : Option Dec :=
  let (intDs, rest1) := takeDigits cs
  let (fracDs, rest2) :=
    match rest1 with
    | '.' :: r => takeDigits r
    | _ => ([], rest1)
  if intDs = [] ∧ fracDs = [] then none
  else
    let mant : ℕ := digitsVal intDs * 10 ^ fracDs.length + digitsVal fracDs
    let sc : ℤ := (fracDs.length : ℤ) - readExponent rest2
    if sc ≤ 0 then some ⟨(mant : ℤ) * 10 ^ (-sc).toNat, 0⟩
    else some ⟨(mant : ℤ), sc.toNat⟩

/-- Model of `Number.parseFloat`: skip whitespace, optional sign, then either
the literal `Infinity` or a decimal literal prefix; anything else is `NaN`. -/
def parseFloat (s : List Char) : JNum :=
  let cs := s.dropWhile jsWhite
  let (neg, cs1) :=
    match cs with
    | '-' :: r => (true, r)
    | '+' :: r => (false, r)
    | _ => (false, cs)
  if "Infinity".data.isPrefixOf cs1 then JNum.inf neg
  else
    match readUnsignedDecimal cs1 with
    | none => JNum.nan
    | some d => JNum.fin (if neg then ⟨-d.num, d.scale⟩ else d)

/-- Fixed decimal precision used for ring-closure comparison (`PRECISION`). -/
def PRECISION : ℕ := 12

/-- Round-half-up of `|d| * 10 ^ PRECISION` to an integer, computed without
leaving ℤ: `⌊(|num| * 10 ^ 12) / 10 ^ scale + 1 / 2⌋`. -/
def Dec.fixUnits (d : Dec) : ℤ :=
  Int.fdiv (2 * |d.num| * 10 ^ PRECISION + 10 ^ d.scale) (2 * 10 ^ d.scale)

/-- Remove trailing factors of ten from `n / 10 ^ s`. -/
def canonAux : ℤ → ℕ → ℤ × ℕ
  | n, 0 => (n, 0)
  | n, s + 1 => if n % 10 = 0 then canonAux (n / 10) s else (n, s + 1)

/-- Canonical form of a scaled decimal (trailing factors of ten removed), so
that two `Dec`s denote the same rational exactly when their canonical forms
are equal. -/
def Dec.canon (d : Dec) : ℤ × ℕ := canonAux d.num d.scale

/-- Model of the strings produced by `toFixed(PRECISION)`: two values map to
equal strings exactly when their representations are equal.  `decText` keeps
the printed sign and the rounded count of `10^-12` units; magnitudes of
`10^21` or more fall back to `ToString`, modelled by the canonical value. -/
inductive FixedRep where
  | nanText : FixedRep
  | infText (neg : Bool) : FixedRep
  | decText (neg : Bool) (units : ℤ) : FixedRep
  | bigText (c : ℤ × ℕ) : FixedRep
deriving DecidableEq, Repr

/-- Model of `x.toFixed(12)` (ECMA-262 `Number.prototype.toFixed`): extract
the sign, then round `|x| * 10^12` to the nearest integer, half away from
zero resolved upward. -/
def toFixed12 (x : JNum) : FixedRep :=
  match x with
  | JNum.nan => FixedRep.nanText
  | JNum.inf b => FixedRep.infText b
  | JNum.fin d =>
      if 10 ^ (21 + d.scale) ≤ |d.num| then FixedRep.bigText d.canon
      else FixedRep.decText (decide (d.num < 0)) d.fixUnits

/-- First and last position compare equal under `toFixed(12)` on both axes. -/
def posFix12Eq (p q : Position) : Bool :=
  toFixed12 p.1 = toFixed12 q.1 ∧ toFixed12 p.2 = toFixed12 q.2

/-- End marker in the Osmosis polygon filter file (`END`). -/
def END : String := "END"

/-- Subtract marker (`!`). -/
def SUBTRACT : Char := '!'

/-- The growing GeoJSON geometry: `coordinates` plus the `type` tag. -/
inductive Geometry where
  | polygon (rings : List GeoRing) : Geometry
  | multiPolygon (polys : List (List GeoRing)) : Geometry
deriving DecidableEq, Repr

/-- The GeoJSON feature under construction: `properties.name` and geometry. -/
structure Feature where
  name : Option String
  geometry : Geometry
deriving DecidableEq, Repr

/-- The initial `gjObj` built in `asyncReadLines` / `readLines`:
a `Feature` with an empty `Polygon` and no name. -/
def initFeature : Feature := { name := none, geometry := Geometry.polygon [] }

/-- Model of `fileLine.split(/  +/g)`: split on maximal runs of two-or-more
spaces.  `tok` is the current token (reversed), `pend` counts spaces seen but
not yet classified as separator or token content. -/
def splitRuns (cs : List Char) (tok : List Char) (pend : ℕ) : List (List Char) :=
  match cs with
  | [] =>
      if 2 ≤ pend then [tok.reverse, []]
      else [(List.replicate pend ' ' ++ tok).reverse]
  | ' ' :: rest => splitRuns rest tok (pend + 1)
  | c :: rest =>
      if 2 ≤ pend then tok.reverse :: splitRuns rest [c] 0
      else splitRuns rest (c :: (List.replicate pend ' ' ++ tok)) 0

/-- `fileLine.split(/  +/g, 3)` from `readCoordinatePair`. -/
def splitLine3 (s : String) : List (List Char) :=
  (splitRuns s.data [] 0).take 3

/-- The pure part of `readCoordinatePair`: the parsed `(lon, lat)` pair, or
`none` when the split yields fewer than three elements or either value is
`NaN` (`Number.isNaN` check; infinities pass). -/
def readPairOfLine (s : String) : Option (JNum × JNum) :=
  match splitLine3 s with
  | _ :: t1 :: t2 :: _ =>
      let lonVal := parseFloat t1
      let latVal := parseFloat t2
      if lonVal = JNum.nan ∨ latVal = JNum.nan then none
      else some (lonVal, latVal)
  | _ => none

/-- `coordinates[coordinates.length - 1].push([])` /
`coordinates.push([])` branch pair used by `endExaminer` (subtract case) and
the non-coordinate fallbacks: append an empty ring to the last polygon of a
`MultiPolygon`, or to a `Polygon`'s ring list.  `none` models the runtime
error of indexing an empty `coordinates` array on a `MultiPolygon`. -/
def pushEmptyRing (g : Geometry) : Option Geometry :=
  match g with
  | Geometry.polygon rs => some (Geometry.polygon (rs ++ [[]]))
  | Geometry.multiPolygon ps =>
      match ps.getLast? with
      | none => none
      | some p => some (Geometry.multiPolygon (ps.dropLast ++ [p ++ [[]]]))

/-- Append one vertex to the last ring of the last polygon (mirrors the two
`push([lonVal, latVal])` branches of `readCoordinatePair`); `none` models the
runtime error when there is no open ring. -/
def appendVertex (pos : Position) (g : Geometry) : Option Geometry :=
  match g with
  | Geometry.polygon rs =>
      match rs.getLast? with
      | none => none
      | some r => some (Geometry.polygon (rs.dropLast ++ [r ++ [pos]]))
  | Geometry.multiPolygon ps =>
      match ps.getLast? with
      | none => none
      | some poly =>
          match poly.getLast? with
          | none => none
          | some r =>
              some (Geometry.multiPolygon (ps.dropLast ++ [poly.dropLast ++ [r ++ [pos]]]))

/-- `readCoordinatePair(fileLine, gjObj)`: `some (false, g)` when the line is
not a coordinate pair (no mutation), `some (true, g')` when a vertex was
appended, `none` when appending hits a missing open ring. -/
def readCoordinatePair (fileLine : String) (g : Geometry) : Option (Bool × Geometry) :=
  match readPairOfLine fileLine with
  | none => some (false, g)
  | some pr =>
      match appendVertex pr g with
      | none => none
      | some g' => some (true, g')

/-- The ring examined by `ensureClosingCoordinates`: last ring of the last
polygon (`MultiPolygon`) or last ring (`Polygon`); `none` models the runtime
error of indexing into empty arrays. -/
def currentRing (g : Geometry) : Option GeoRing :=
  match g with
  | Geometry.polygon rs => rs.getLast?
  | Geometry.multiPolygon ps =>
      match ps.getLast? with
      | none => none
      | some p => p.getLast?

/-- Replace the ring that `currentRing` designates (the in-place `push` on the
shared ring array in `ensureClosingCoordinates`). -/
def setCurrentRing (g : Geometry) (r : GeoRing) : Geometry :=
  match g with
  | Geometry.polygon rs => Geometry.polygon (rs.dropLast ++ [r])
  | Geometry.multiPolygon ps =>
      match ps.getLast? with
      | none => g
      | some p => Geometry.multiPolygon (ps.dropLast ++ [p.dropLast ++ [r]])

/-- The ring-level core of `ensureClosingCoordinates` (lines 134-143 of the
source): with more than two vertices the result is valid, and a copy of the
first position is appended when first and last differ under `toFixed(12)` on
either axis. -/
def closeRing (ring : GeoRing) : Bool × GeoRing :=
  if 2 < ring.length then
    let firstPair := ring.headI
    let lastPair := ring.getLastI
    if posFix12Eq firstPair lastPair then (true, ring)
    else (true, ring ++ [firstPair])
  else (false, ring)

/-- `ensureClosingCoordinates(gjObj)`: locate the current ring, validate and
close it; `none` models the runtime error when no ring exists. -/
def ensureClosingCoordinates (g : Geometry) : Option (Bool × Geometry) :=
  match currentRing g with
  | none => none
  | some ring =>
      let res := closeRing ring
      some (res.1, setCurrentRing g res.2)

/-- The examiner states of the strategy-pattern state machine, one per
function of the source. -/
inductive Examiner where
  | fileE : Examiner
  | endE : Examiner
  | polygonE : Examiner
  | coordinateE : Examiner
deriving DecidableEq, Repr

/-- `fileExaminer`: a truthy (non-empty) line sets `properties.name`. -/
def fileExaminer (inLine : String) (f : Feature) : Option (Examiner × Feature) :=
  if inLine ≠ "" then some (Examiner.polygonE, { f with name := some inLine })
  else none

/-- The `else` branch of `endExaminer` for a line that is neither `END` nor
subtract-marked: promote a `Polygon` to a `MultiPolygon` wrapping the existing
coordinates, then `coordinates.push([[]])`. -/
def promoteThenOpen (g : Geometry) : Geometry :=
  match g with
  | Geometry.polygon rs => Geometry.multiPolygon ([rs] ++ [[[]]])
  | Geometry.multiPolygon ps => Geometry.multiPolygon (ps ++ [[[]]])

/-- `endExaminer`. -/
def endExaminer (inLine : String) (f : Feature) : Option (Examiner × Feature) :=
  if inLine = END then some (Examiner.endE, f)
  else if inLine.data.head? = some SUBTRACT then
    (pushEmptyRing f.geometry).map fun g' => (Examiner.polygonE, { f with geometry := g' })
  else
    some (Examiner.polygonE, { f with geometry := promoteThenOpen f.geometry })

/-- `polygonExaminer`. -/
def polygonExaminer (inLine : String) (f : Feature) : Option (Examiner × Feature) :=
  if inLine = END then some (Examiner.endE, f)
  else
    match readCoordinatePair inLine f.geometry with
    | none => none
    | some (true, g') => some (Examiner.coordinateE, { f with geometry := g' })
    | some (false, _) =>
        if inLine ≠ "" then
          (pushEmptyRing f.geometry).map fun g' =>
            (Examiner.coordinateE, { f with geometry := g' })
        else none

/-- `coordinateExaminer`. -/
def coordinateExaminer (inLine : String) (f : Feature) : Option (Examiner × Feature) :=
  if inLine = END then
    match ensureClosingCoordinates f.geometry with
    | none => none
    | some (false, _) => none
    | some (true, g') => some (Examiner.endE, { f with geometry := g' })
  else
    match readCoordinatePair inLine f.geometry with
    | none => none
    | some (true, g') => some (Examiner.coordinateE, { f with geometry := g' })
    | some (false, _) =>
        if inLine ≠ "" then
          (pushEmptyRing f.geometry).map fun g' =>
            (Examiner.polygonE, { f with geometry := g' })
        else none

/-- One transition of the state machine. -/
def step (st : Examiner) (l : String) (f : Feature) : Option (Examiner × Feature) :=
  match st with
  | Examiner.fileE => fileExaminer l f
  | Examiner.endE => endExaminer l f
  | Examiner.polygonE => polygonExaminer l f
  | Examiner.coordinateE => coordinateExaminer l f

/-- Run the machine over a list of lines; `none` as soon as a step fails. -/
def runSteps (st : Examiner) (f : Feature) (ls : List String) :
    Option (Examiner × Feature) :=
  match ls with
  | [] => some (st, f)
  | l :: rest =>
      match step st l f with
      | none => none
      | some (st', f') => runSteps st' f' rest

/-- `asyncReadLines` / `readLines` on an abstract line supply: the promise
resolves with `gjObj` after the last line whenever no examiner failed, in
whatever state the machine then is; an empty supply never resolves. -/
def runParse (lines : List String) : Option Feature :=
  match lines with
  | [] => none
  | _ :: _ => (runSteps Examiner.fileE initFeature lines).map (fun x => x.2)

/-- All rings of a feature, in order, flattening a `MultiPolygon`. -/
def featureRings (f : Feature) : List GeoRing :=
  match f.geometry with
  | Geometry.polygon rs => rs
  | Geometry.multiPolygon ps => ps.flatten

/-- A line that opens a second (or later) outer-ring group: any line consumed
in the `endExaminer` state that is neither the end marker nor
subtract-marked. -/
def isIntro (st : Examiner) (l : String) : Bool :=
  st = Examiner.endE ∧ l ≠ END ∧ l.data.head? ≠ some SUBTRACT

/-- Number of outer-group-opening lines consumed along the (unique) run of
the machine from the given configuration. -/
def introsFrom (st : Examiner) (f : Feature) (ls : List String) : ℕ :=
  match ls with
  | [] => 0
  | l :: rest =>
      match step st l f with
      | none => 0
      | some (st', f') => (if isIntro st l then 1 else 0) + introsFrom st' f' rest

/-- Number of outer-ring groups of an input, as consumed by the machine:
the initial group plus one per group-opening line. -/
def outerGroupCount (lines : List String) : ℕ :=
  1 + introsFrom Examiner.fileE initFeature lines

/-- Split the line list at the first outer-group-opening line, walking the
machine: `(prefix before it, the line itself, the rest)`. -/
def splitAtIntro (st : Examiner) (f : Feature) (ls : List String) :
    Option (List String × String × List String) :=
  match ls with
  | [] => none
  | l :: rest =>
      if isIntro st l then some ([], l, rest)
      else
        match step st l f with
        | none => none
        | some (st', f') =>
            (splitAtIntro st' f' rest).map fun x => (l :: x.1, x.2.1, x.2.2)

/-- Running over an appended list runs the two parts in sequence. -/
theorem runSteps_append (st : Examiner) (f : Feature) (l1 l2 : List String) :
    runSteps st f (l1 ++ l2) =
      match runSteps st f l1 with
      | none => none
      | some (st', f') => runSteps st' f' l2 := by
  induction l1 generalizing st f with
  | nil => rfl
  | cons l ls ih =>
      simp only [List.cons_append, runSteps]
      cases h : step st l f with
      | none => rfl
      | some p => exact ih p.1 p.2

/-- A failed prefix makes the whole run fail. -/
theorem runSteps_append_none (st : Examiner) (f : Feature) (l1 l2 : List String)
    (h : runSteps st f l1 = none) : runSteps st f (l1 ++ l2) = none := by
  rw [runSteps_append, h]

/-- The spec's first example input, spaces exactly as written there
(single spaces between the index and coordinate tokens). -/
def exampleNarrow : List String :=
  ["boundary", "1", " 1 0.0 0.0", " 2 1.0 0.0", " 3 1.0 1.0", "END", "END"]

/-- What the program actually produces on `exampleNarrow`: no line splits on
a run of two-or-more spaces, so every line after the name is taken for a
ring-boundary marker and four empty rings are opened. -/
def exampleNarrowOutput : Feature :=
  { name := some "boundary", geometry := Geometry.polygon [[], [], [], []] }

/-- The same example with the coordinate columns separated by two spaces, as
the splitting rule of `readCoordinatePair` requires. -/
def exampleWide : List String :=
  ["boundary", "1", " 1  0.0  0.0", " 2  1.0  0.0", " 3  1.0  1.0", "END", "END"]

/-- The ring produced by `exampleWide`. -/
def exampleWideRing : GeoRing :=
  [(JNum.fin ⟨0, 1⟩, JNum.fin ⟨0, 1⟩), (JNum.fin ⟨10, 1⟩, JNum.fin ⟨0, 1⟩),
   (JNum.fin ⟨10, 1⟩, JNum.fin ⟨10, 1⟩), (JNum.fin ⟨0, 1⟩, JNum.fin ⟨0, 1⟩)]

/-- C1 fails on the code: on the exact input lines of the claim (single
spaces between tokens), the parse succeeds but yields a `Polygon` of four
empty rings — not one ring of four positions — because
`readCoordinatePair` splits only on runs of two-or-more spaces, so none of
the coordinate lines parses as a coordinate pair. -/
theorem c1_counterexample :
    runParse exampleNarrow = some exampleNarrowOutput ∧
    (featureRings exampleNarrowOutput).length = 4 ∧
    featureRings exampleNarrowOutput = [[], [], [], []] := by
  refine ⟨by decide, by decide, by decide⟩

/-- C1 (amended): with the index and coordinate tokens separated by runs of
two-or-more spaces, the input `["boundary", "1", " 1  0.0  0.0",
" 2  1.0  0.0", " 3  1.0  1.0", "END", "END"]` parses to a Feature whose
geometry is `Polygon` with exactly one ring of 4 positions, the 4th equal to
the 1st, which has the value `[0, 0]`. -/
theorem c1_wide_polygon :
    runParse exampleWide =
      some { name := some "boundary", geometry := Geometry.polygon [exampleWideRing] } ∧
    exampleWideRing.length = 4 ∧
    exampleWideRing.getLast? = exampleWideRing.head? ∧
    exampleWideRing.head? = some (JNum.fin ⟨0, 1⟩, JNum.fin ⟨0, 1⟩) ∧
    Dec.val ⟨0, 1⟩ = 0 := by
  refine ⟨by decide, by decide, by decide, by decide, ?_⟩
  simp [Dec.val]

/-- `posFix12Eq` holds between a position and itself. -/
theorem posFix12Eq_refl (p : Position) : posFix12Eq p p = true := by
  simp [posFix12Eq]

/-- C6: ring closure is idempotent.  For a ring of more than 2 vertices whose
first and last positions are identical, `closeRing` reports success and
leaves the ring unchanged; when first and last differ under the fixed
12-digit rounding in either axis, it appends exactly one vertex equal to the
first position, and closing the resulting ring again changes nothing. -/
theorem c6_closeRing_idempotent (r : GeoRing) (a b : Position)
    (hlen : 2 < r.length) (hhead : r.head? = some a) (hlast : r.getLast? = some b) :
    (a = b → closeRing r = (true, r)) ∧
    (posFix12Eq a b = false →
      closeRing r = (true, r ++ [a]) ∧ closeRing (r ++ [a]) = (true, r ++ [a])) := by
  obtain ⟨p0, t, rfl⟩ : ∃ p0 t, r = p0 :: t := by
    cases r with
    | nil => simp at hlen
    | cons x xs => exact ⟨x, xs, rfl⟩
  have ha : a = p0 := by
    simpa using hhead.symm
  subst ha
  have hI : (a :: t).headI = a := rfl
  have hJ : (a :: t).getLastI = b := by
    rw [List.getLastI_eq_getLast?, hlast]
  constructor
  · intro hab
    subst hab
    unfold closeRing
    simp only [if_pos hlen, hI, hJ, posFix12Eq_refl, if_true]
  · intro hne
    have h1 : closeRing (a :: t) = (true, (a :: t) ++ [a]) := by
      unfold closeRing
      simp only [if_pos hlen, hI, hJ, hne, Bool.false_eq_true, if_false]
    refine ⟨h1, ?_⟩
    have hlen2 : 2 < ((a :: t) ++ [a]).length := by
      simp only [List.length_append, List.length_cons, List.length_nil] at hlen ⊢
      omega
    have hI2 : ((a :: t) ++ [a]).headI = a := rfl
    have hJ2 : ((a :: t) ++ [a]).getLastI = a := by
      rw [List.getLastI_eq_getLast?, List.getLast?_concat]
    unfold closeRing
    simp only [if_pos hlen2, hI2, hJ2, posFix12Eq_refl, if_true]

/-- Concrete instance of `c6_closeRing_idempotent`: a three-vertex open ring
is closed by appending its first vertex, and re-closing changes nothing. -/
theorem c6_closeRing_idempotent_witness :
    closeRing [(JNum.fin ⟨0, 0⟩, JNum.fin ⟨0, 0⟩), (JNum.fin ⟨1, 0⟩, JNum.fin ⟨0, 0⟩),
        (JNum.fin ⟨1, 0⟩, JNum.fin ⟨1, 0⟩)] =
      (true, [(JNum.fin ⟨0, 0⟩, JNum.fin ⟨0, 0⟩), (JNum.fin ⟨1, 0⟩, JNum.fin ⟨0, 0⟩),
        (JNum.fin ⟨1, 0⟩, JNum.fin ⟨1, 0⟩), (JNum.fin ⟨0, 0⟩, JNum.fin ⟨0, 0⟩)]) ∧
    closeRing [(JNum.fin ⟨0, 0⟩, JNum.fin ⟨0, 0⟩), (JNum.fin ⟨1, 0⟩, JNum.fin ⟨0, 0⟩),
        (JNum.fin ⟨1, 0⟩, JNum.fin ⟨1, 0⟩), (JNum.fin ⟨0, 0⟩, JNum.fin ⟨0, 0⟩)] =
      (true, [(JNum.fin ⟨0, 0⟩, JNum.fin ⟨0, 0⟩), (JNum.fin ⟨1, 0⟩, JNum.fin ⟨0, 0⟩),
        (JNum.fin ⟨1, 0⟩, JNum.fin ⟨1, 0⟩), (JNum.fin ⟨0, 0⟩, JNum.fin ⟨0, 0⟩)]) :=
  (c6_closeRing_idempotent
    [(JNum.fin ⟨0, 0⟩, JNum.fin ⟨0, 0⟩), (JNum.fin ⟨1, 0⟩, JNum.fin ⟨0, 0⟩),
     (JNum.fin ⟨1, 0⟩, JNum.fin ⟨1, 0⟩)]
    (JNum.fin ⟨0, 0⟩, JNum.fin ⟨0, 0⟩) (JNum.fin ⟨1, 0⟩, JNum.fin ⟨1, 0⟩)
    (by decide) (by decide) (by decide)).2 (by decide)

/-- C8: a non-empty line that is neither the end marker nor a parsable
coordinate pair, consumed in the `coordinateExaminer` state, does not abort
the parse: a new empty ring is opened in the current polygon and the machine
moves to the ring-start (`polygonExaminer`) state. -/
theorem c8_unparsable_line_opens_ring (line : String) (f : Feature)
    (hEnd : line ≠ END) (hne : line ≠ "") (hfail : readPairOfLine line = none) :
    (∀ rs, f.geometry = Geometry.polygon rs →
      coordinateExaminer line f =
        some (Examiner.polygonE, { f with geometry := Geometry.polygon (rs ++ [[]]) })) ∧
    (∀ ps p, f.geometry = Geometry.multiPolygon (ps ++ [p]) →
      coordinateExaminer line f =
        some (Examiner.polygonE,
          { f with geometry := Geometry.multiPolygon (ps ++ [p ++ [[]]]) })) := by
  constructor
  · intro rs hg
    simp only [coordinateExaminer, if_neg hEnd, readCoordinatePair, hfail, hg,
      pushEmptyRing, if_pos hne]
    rfl
  · intro ps p hg
    simp only [coordinateExaminer, if_neg hEnd, readCoordinatePair, hfail, hg,
      pushEmptyRing, if_pos hne, List.getLast?_concat, List.dropLast_concat]
    rfl

/-- Concrete instance of `c8_unparsable_line_opens_ring`: the line `"2"` in
the coordinate state opens a new empty ring and does not abort. -/
theorem c8_unparsable_line_opens_ring_witness :
    coordinateExaminer "2" { name := some "n", geometry := Geometry.polygon [[]] } =
      some (Examiner.polygonE,
        { name := some "n", geometry := Geometry.polygon [[], []] }) :=
  (c8_unparsable_line_opens_ring "2"
    { name := some "n", geometry := Geometry.polygon [[]] }
    (by decide) (by decide) (by decide)).1 [[]] rfl

/-- C9 fails on the code: the token `Infinity` parses to an infinite (not
finite) number, `Number.isNaN` does not reject it, and `readCoordinatePair`
succeeds and appends a vertex with an infinite latitude. -/
theorem c9_counterexample :
    readCoordinatePair "x  1  Infinity" (Geometry.polygon [[]]) =
      some (true, Geometry.polygon [[(JNum.fin ⟨1, 0⟩, JNum.inf false)]]) ∧
    parseFloat "Infinity".data = JNum.inf false := by
  refine ⟨by decide, by decide⟩

/-- C9 (amended): `readCoordinatePair` reads a coordinate pair exactly when
splitting the line on runs of two-or-more spaces (first three fields kept)
leaves, after the discarded first token, two further tokens that both parse
to numbers other than `NaN` — infinite values are accepted, so the parsed
numbers need not be finite; on every other line it reports "not a coordinate
pair" and leaves the geometry unchanged. -/
theorem c9_pair_read_iff (line : String) (g : Geometry) :
    ((∃ v, readPairOfLine line = some v) ↔
      (∃ t0 t1 t2 r, splitLine3 line = t0 :: t1 :: t2 :: r ∧
        parseFloat t1 ≠ JNum.nan ∧ parseFloat t2 ≠ JNum.nan)) ∧
    (readPairOfLine line = none → readCoordinatePair line g = some (false, g)) := by
  constructor
  · constructor
    · intro ⟨v, hv⟩
      unfold readPairOfLine at hv
      split at hv
      next t0 t1 t2 r heq =>
        refine ⟨t0, t1, t2, r, heq, ?_, ?_⟩
        · intro h1
          simp [h1] at hv
        · intro h2
          simp [h2] at hv
      next => cases hv
    · intro ⟨t0, t1, t2, r, hs, h1, h2⟩
      unfold readPairOfLine
      rw [hs]
      exact ⟨(parseFloat t1, parseFloat t2), by simp [h1, h2]⟩
  · intro hfail
    simp only [readCoordinatePair, hfail]

/-- Concrete instance of `c9_pair_read_iff`: a line with single-space
separators is reported as "not a coordinate pair" and the geometry is
untouched. -/
theorem c9_pair_read_iff_witness :
    readCoordinatePair " 1 2.0 3.0" (Geometry.polygon []) =
      some (false, Geometry.polygon []) :=
  (c9_pair_read_iff " 1 2.0 3.0" (Geometry.polygon [])).2 (by decide)

/-- C10: an empty line consumed in the `endExaminer` state is not rejected
as malformed: it is neither the end marker nor subtract-marked, so the
geometry is promoted from `Polygon` to `MultiPolygon` when not already
promoted, a new polygon holding one empty ring is opened, and the machine
moves to the ring-start state. -/
theorem c10_empty_line_in_end_state (f : Feature) :
    (∀ rs, f.geometry = Geometry.polygon rs →
      endExaminer "" f =
        some (Examiner.polygonE,
          { f with geometry := Geometry.multiPolygon [rs, [[]]] })) ∧
    (∀ ps, f.geometry = Geometry.multiPolygon ps →
      endExaminer "" f =
        some (Examiner.polygonE,
          { f with geometry := Geometry.multiPolygon (ps ++ [[[]]]) })) := by
  constructor
  · intro rs hg
    simp only [endExaminer, promoteThenOpen, hg]
    rfl
  · intro ps hg
    simp only [endExaminer, promoteThenOpen, hg]
    rfl

/-- Concrete instance of `c10_empty_line_in_end_state`: an empty line after
a closed ring promotes the single polygon to a multi-polygon. -/
theorem c10_empty_line_in_end_state_witness :
    endExaminer "" { name := some "n", geometry := Geometry.polygon [[]] } =
      some (Examiner.polygonE,
        { name := some "n", geometry := Geometry.multiPolygon [[[]], [[]]] }) :=
  (c10_empty_line_in_end_state
    { name := some "n", geometry := Geometry.polygon [[]] }).1 [[]] rfl

/-- Evaluation of `closeRing` on a ring of more than two vertices with known
first and last elements. -/
theorem closeRing_spec (p : Position) (t : List Position) (q : Position)
    (hlen : 2 < (p :: t).length) (hq : (p :: t).getLast? = some q) :
    closeRing (p :: t) =
      (true, if posFix12Eq p q then p :: t else (p :: t) ++ [p]) := by
  have hI : (p :: t).headI = p := rfl
  have hJ : (p :: t).getLastI = q := by rw [List.getLastI_eq_getLast?, hq]
  unfold closeRing
  rw [if_pos hlen, hI, hJ]
  by_cases hpq : posFix12Eq p q = true <;> simp [hpq]

/-- `setCurrentRing` puts its argument where `currentRing` looks. -/
theorem currentRing_setCurrentRing (g : Geometry) (r0 r : GeoRing)
    (h : currentRing g = some r0) : currentRing (setCurrentRing g r) = some r := by
  cases g with
  | polygon rs =>
      simp only [setCurrentRing, currentRing, List.getLast?_concat]
  | multiPolygon ps =>
      simp only [currentRing] at h
      cases hps : ps.getLast? with
      | none => rw [hps] at h; cases h
      | some p =>
          simp only [setCurrentRing, currentRing, hps, List.getLast?_concat]

/-- A failing run yields no feature. -/
theorem runParse_eq_none_of_runSteps (ls : List String)
    (h : runSteps Examiner.fileE initFeature ls = none) : runParse ls = none := by
  cases ls with
  | nil => rfl
  | cons l t =>
      simp only [runParse]
      rw [h]
      rfl

/-- C2 fails on the code: the one-line input `["boundary"]` exhausts the
supply in the `polygonExaminer` (ring-start) state — not the terminal
`endExaminer` state — yet the parse resolves and surfaces a Feature. -/
theorem c2_counterexample :
    runSteps Examiner.fileE initFeature ["boundary"] =
      some (Examiner.polygonE,
        { name := some "boundary", geometry := Geometry.polygon [] }) ∧
    Examiner.polygonE ≠ Examiner.endE ∧
    runParse ["boundary"] =
      some { name := some "boundary", geometry := Geometry.polygon [] } := by
  refine ⟨by decide, by decide, by decide⟩

/-- C2 (amended): the parse returns a Feature exactly when the line supply
is non-empty and every line is processed without a failing transition, in
whatever state the supply is then exhausted; a failing transition makes the
parse return no Feature over any extension of the input, so no partial
Feature is surfaced. -/
theorem c2_feature_iff_no_failure (lines rest : List String) :
    (∀ st f, runSteps Examiner.fileE initFeature lines = some (st, f) →
      lines ≠ [] → runParse lines = some f) ∧
    (runSteps Examiner.fileE initFeature lines = none →
      runParse (lines ++ rest) = none) ∧
    (runParse lines = none ↔
      (lines = [] ∨ runSteps Examiner.fileE initFeature lines = none)) := by
  refine ⟨?_, ?_, ?_⟩
  · intro st f h hne
    cases lines with
    | nil => exact absurd rfl hne
    | cons l ls =>
        simp only [runParse]
        rw [h]
        rfl
  · intro h
    exact runParse_eq_none_of_runSteps _ (runSteps_append_none _ _ _ rest h)
  · cases lines with
    | nil => simp [runParse, runSteps]
    | cons l ls =>
        simp only [runParse]
        constructor
        · intro h
          right
          cases hr : runSteps Examiner.fileE initFeature (l :: ls) with
          | none => rfl
          | some p => rw [hr] at h; cases h
        · intro h
          rcases h with h | h
          · cases h
          · rw [h]
            rfl

/-- Concrete instance of `c2_feature_iff_no_failure`: a well-formed header
and two end markers parse to a Feature. -/
theorem c2_feature_iff_no_failure_witness :
    runParse ["n", "END", "END"] =
      some { name := some "n", geometry := Geometry.polygon [] } :=
  (c2_feature_iff_no_failure ["n", "END", "END"] []).1 Examiner.endE
    { name := some "n", geometry := Geometry.polygon [] } (by decide) (by decide)

/-- A successful input whose hole ring (`"!2"`) reaches its end marker in
the ring-start state, bypassing ring validation. -/
def holeSkipInput : List String :=
  ["name", "1", " 1  0.0  0.0", " 2  1.0  0.0", " 3  1.0  1.0", "END", "!2", "END", "END"]

/-- The feature returned for `holeSkipInput`. -/
def holeSkipOutput : Feature :=
  { name := some "name", geometry := Geometry.polygon [exampleWideRing, []] }

/-- C3 fails on the code: in `holeSkipInput` the ring opened by the
subtract line is ended by a marker consumed in the ring-start state, where
no closure check runs; the parse succeeds and the returned Feature contains
an empty ring (0 vertices, so neither the 3-vertex minimum nor first/last
equality holds for it). -/
theorem c3_counterexample :
    runParse holeSkipInput = some holeSkipOutput ∧
    [] ∈ featureRings holeSkipOutput ∧
    ([] : GeoRing).length < 3 := by
  refine ⟨by decide, by decide, by decide⟩

/-- C3 (amended): every ring closed through `ensureClosingCoordinates` (its
end marker consumed in the coordinate state without failing) has at least 3
vertices and first and last positions equal under the fixed 12-digit
comparison; rings whose end marker arrives in the ring-start state are not
validated and can reach a successful output even when empty. -/
theorem c3_validated_ring_closed (g g' : Geometry)
    (h : ensureClosingCoordinates g = some (true, g')) :
    ∃ r a b, currentRing g' = some r ∧ 3 ≤ r.length ∧
      r.head? = some a ∧ r.getLast? = some b ∧ posFix12Eq a b = true := by
  simp only [ensureClosingCoordinates] at h
  cases hc : currentRing g with
  | none => rw [hc] at h; cases h
  | some ring =>
      rw [hc] at h
      simp only [Option.some.injEq, Prod.mk.injEq] at h
      by_cases hlen : 2 < ring.length
      · obtain ⟨p, t, rfl⟩ : ∃ p t, ring = p :: t := by
          cases ring with
          | nil => simp at hlen
          | cons x xs => exact ⟨x, xs, rfl⟩
        obtain ⟨q, hq⟩ : ∃ q, (p :: t).getLast? = some q :=
          Option.isSome_iff_exists.mp (List.getLast?_isSome.mpr (List.cons_ne_nil p t))
        rw [closeRing_spec p t q hlen hq] at h
        by_cases hpq : posFix12Eq p q = true
        · rw [if_pos hpq] at h
          refine ⟨p :: t, p, q, ?_, by omega, rfl, hq, hpq⟩
          rw [← h.2]
          exact currentRing_setCurrentRing g (p :: t) (p :: t) hc
        · rw [if_neg hpq] at h
          refine ⟨(p :: t) ++ [p], p, p, ?_, ?_, ?_, ?_, posFix12Eq_refl p⟩
          · rw [← h.2]
            exact currentRing_setCurrentRing g (p :: t) ((p :: t) ++ [p]) hc
          · simp only [List.length_append, List.length_cons, List.length_nil] at hlen ⊢
            omega
          · rfl
          · exact List.getLast?_concat _
      · simp only [closeRing, if_neg hlen] at h
        exact absurd h.1 (by simp)

/-- Concrete instance of `c3_validated_ring_closed`: closing a three-vertex
ring through `ensureClosingCoordinates` yields a validated closed ring. -/
theorem c3_validated_ring_closed_witness :
    ∃ r a b,
      currentRing (Geometry.polygon
        [[(JNum.fin ⟨0, 0⟩, JNum.fin ⟨0, 0⟩), (JNum.fin ⟨1, 0⟩, JNum.fin ⟨0, 0⟩),
          (JNum.fin ⟨1, 0⟩, JNum.fin ⟨1, 0⟩), (JNum.fin ⟨0, 0⟩, JNum.fin ⟨0, 0⟩)]]) = some r ∧
      3 ≤ r.length ∧ r.head? = some a ∧ r.getLast? = some b ∧ posFix12Eq a b = true :=
  c3_validated_ring_closed
    (Geometry.polygon
      [[(JNum.fin ⟨0, 0⟩, JNum.fin ⟨0, 0⟩), (JNum.fin ⟨1, 0⟩, JNum.fin ⟨0, 0⟩),
        (JNum.fin ⟨1, 0⟩, JNum.fin ⟨1, 0⟩)]])
    (Geometry.polygon
      [[(JNum.fin ⟨0, 0⟩, JNum.fin ⟨0, 0⟩), (JNum.fin ⟨1, 0⟩, JNum.fin ⟨0, 0⟩),
        (JNum.fin ⟨1, 0⟩, JNum.fin ⟨1, 0⟩), (JNum.fin ⟨0, 0⟩, JNum.fin ⟨0, 0⟩)]])
    (by decide)

/-- C7 fails on the code: in the input `["n", "END", "x", "END", "END"]` the
ring opened by the line `"x"` still has 0 (≤ 2) vertices when its end marker
(line 4) is consumed — in the ring-start state — yet the parse succeeds. -/
theorem c7_counterexample :
    runSteps Examiner.fileE initFeature ["n", "END", "x"] =
      some (Examiner.polygonE,
        { name := some "n", geometry := Geometry.multiPolygon [[], [[]]] }) ∧
    currentRing (Geometry.multiPolygon [[], [[]]]) = some [] ∧
    runParse ["n", "END", "x", "END", "END"] =
      some { name := some "n", geometry := Geometry.multiPolygon [[], [[]]] } := by
  refine ⟨by decide, by decide, by decide⟩

/-- C7 (amended): an end marker consumed in the coordinate state with at
most 2 vertices in the current ring fails the whole parse; with exactly 3
vertices, ring closure succeeds and the parse continues.  An end marker
consumed in the ring-start state runs no validation, so a just-opened empty
ring passes unchecked. -/
theorem c7_closure_vertex_minimum (f : Feature) (r : GeoRing) (pre rest : List String)
    (hr : currentRing f.geometry = some r) :
    (r.length ≤ 2 → step Examiner.coordinateE END f = none) ∧
    (r.length = 3 →
      ∃ f', step Examiner.coordinateE END f = some (Examiner.endE, f')) ∧
    (r.length ≤ 2 →
      runSteps Examiner.fileE initFeature pre = some (Examiner.coordinateE, f) →
      runParse (pre ++ END :: rest) = none) := by
  have hfail : r.length ≤ 2 → step Examiner.coordinateE END f = none := by
    intro hlen
    have hnot : ¬ 2 < r.length := by omega
    simp only [step, coordinateExaminer, if_pos rfl, ensureClosingCoordinates, hr,
      closeRing, if_neg hnot, if_true]
  refine ⟨hfail, ?_, ?_⟩
  · intro hlen
    obtain ⟨p, t, rfl⟩ : ∃ p t, r = p :: t := by
      cases r with
      | nil => simp at hlen
      | cons x xs => exact ⟨x, xs, rfl⟩
    obtain ⟨q, hq⟩ : ∃ q, (p :: t).getLast? = some q :=
      Option.isSome_iff_exists.mp (List.getLast?_isSome.mpr (List.cons_ne_nil p t))
    have hlen' : 2 < (p :: t).length := by omega
    refine ⟨⟨f.name, setCurrentRing f.geometry
      (if posFix12Eq p q then p :: t else (p :: t) ++ [p])⟩, ?_⟩
    simp only [step, coordinateExaminer, if_pos rfl, ensureClosingCoordinates, hr,
      closeRing_spec p t q hlen' hq, if_true]
  · intro hlen hpre
    apply runParse_eq_none_of_runSteps
    rw [runSteps_append, hpre]
    simp only [runSteps, hfail hlen]

/-- Concrete instance of `c7_closure_vertex_minimum`: a ring holding only
two vertices when the end marker arrives in the coordinate state makes the
whole parse fail. -/
theorem c7_closure_vertex_minimum_witness :
    runParse (["n", "1", " 1  0.0  0.0", " 2  1.0  0.0"] ++ END :: []) = none :=
  (c7_closure_vertex_minimum
    { name := some "n",
      geometry := Geometry.polygon
        [[(JNum.fin ⟨0, 1⟩, JNum.fin ⟨0, 1⟩), (JNum.fin ⟨10, 1⟩, JNum.fin ⟨0, 1⟩)]] }
    [(JNum.fin ⟨0, 1⟩, JNum.fin ⟨0, 1⟩), (JNum.fin ⟨10, 1⟩, JNum.fin ⟨0, 1⟩)]
    ["n", "1", " 1  0.0  0.0", " 2  1.0  0.0"] []
    (by decide)).2.2 (by decide) (by decide)


/-- `appendVertex` keeps the `Polygon` tag. -/
theorem appendVertex_polygon (pos : Position) (rs : List GeoRing) (g' : Geometry)
    (h : appendVertex pos (Geometry.polygon rs) = some g') :
    ∃ rs', g' = Geometry.polygon rs' := by
  simp only [appendVertex] at h
  cases hl : rs.getLast? with
  | none =>
      simp only [hl] at h
      cases h
  | some r =>
      simp only [hl, Option.some.injEq] at h
      exact ⟨rs.dropLast ++ [r ++ [pos]], h.symm⟩

/-- `appendVertex` on a `MultiPolygon` succeeds only by replacing the last
polygon. -/
theorem appendVertex_multiPolygon (pos : Position) (ps : List (List GeoRing))
    (g' : Geometry)
    (h : appendVertex pos (Geometry.multiPolygon ps) = some g') :
    ps ≠ [] ∧ ∃ y, g' = Geometry.multiPolygon (ps.dropLast ++ [y]) := by
  simp only [appendVertex] at h
  cases hl : ps.getLast? with
  | none =>
      simp only [hl] at h
      cases h
  | some poly =>
      have hne : ps ≠ [] := by
        intro he
        rw [he] at hl
        cases hl
      cases hp : poly.getLast? with
      | none =>
          simp only [hl, hp] at h
          cases h
      | some r =>
          simp only [hl, hp, Option.some.injEq] at h
          exact ⟨hne, poly.dropLast ++ [r ++ [pos]], h.symm⟩

/-- `pushEmptyRing` keeps the `Polygon` tag, appending a ring. -/
theorem pushEmptyRing_polygon (rs : List GeoRing) :
    pushEmptyRing (Geometry.polygon rs) = some (Geometry.polygon (rs ++ [[]])) := rfl

/-- `pushEmptyRing` on a `MultiPolygon` succeeds only by replacing the last
polygon. -/
theorem pushEmptyRing_multiPolygon (ps : List (List GeoRing)) (g' : Geometry)
    (h : pushEmptyRing (Geometry.multiPolygon ps) = some g') :
    ps ≠ [] ∧ ∃ y, g' = Geometry.multiPolygon (ps.dropLast ++ [y]) := by
  simp only [pushEmptyRing] at h
  cases hl : ps.getLast? with
  | none =>
      simp only [hl] at h
      cases h
  | some poly =>
      have hne : ps ≠ [] := by
        intro he
        rw [he] at hl
        cases hl
      simp only [hl, Option.some.injEq] at h
      exact ⟨hne, poly ++ [[]], h.symm⟩

/-- `readCoordinatePair` keeps the `Polygon` tag. -/
theorem readCoordinatePair_polygon (l : String) (rs : List GeoRing) (b : Bool)
    (g' : Geometry)
    (h : readCoordinatePair l (Geometry.polygon rs) = some (b, g')) :
    ∃ rs', g' = Geometry.polygon rs' := by
  simp only [readCoordinatePair] at h
  cases hp : readPairOfLine l with
  | none =>
      simp only [hp, Option.some.injEq, Prod.mk.injEq] at h
      exact ⟨rs, h.2.symm⟩
  | some pr =>
      cases ha : appendVertex pr (Geometry.polygon rs) with
      | none =>
          simp only [hp, ha] at h
          cases h
      | some g2 =>
          simp only [hp, ha, Option.some.injEq, Prod.mk.injEq] at h
          obtain ⟨rs', hrs⟩ := appendVertex_polygon pr rs g2 ha
          exact ⟨rs', by rw [← h.2, hrs]⟩

/-- `readCoordinatePair` on a `MultiPolygon` leaves the list unchanged or
replaces its last polygon. -/
theorem readCoordinatePair_multiPolygon (l : String) (ps : List (List GeoRing))
    (b : Bool) (g' : Geometry)
    (h : readCoordinatePair l (Geometry.multiPolygon ps) = some (b, g')) :
    g' = Geometry.multiPolygon ps ∨
      (ps ≠ [] ∧ ∃ y, g' = Geometry.multiPolygon (ps.dropLast ++ [y])) := by
  simp only [readCoordinatePair] at h
  cases hp : readPairOfLine l with
  | none =>
      simp only [hp, Option.some.injEq, Prod.mk.injEq] at h
      exact Or.inl h.2.symm
  | some pr =>
      cases ha : appendVertex pr (Geometry.multiPolygon ps) with
      | none =>
          simp only [hp, ha] at h
          cases h
      | some g2 =>
          simp only [hp, ha, Option.some.injEq, Prod.mk.injEq] at h
          obtain ⟨hne, y, hy⟩ := appendVertex_multiPolygon pr ps g2 ha
          exact Or.inr ⟨hne, y, by rw [← h.2, hy]⟩

/-- `ensureClosingCoordinates` keeps the `Polygon` tag. -/
theorem ensureClosing_polygon (rs : List GeoRing) (b : Bool) (g' : Geometry)
    (h : ensureClosingCoordinates (Geometry.polygon rs) = some (b, g')) :
    ∃ rs', g' = Geometry.polygon rs' := by
  simp only [ensureClosingCoordinates, currentRing] at h
  cases hc : rs.getLast? with
  | none =>
      simp only [hc] at h
      cases h
  | some ring =>
      simp only [hc, Option.some.injEq, Prod.mk.injEq, setCurrentRing] at h
      exact ⟨rs.dropLast ++ [(closeRing ring).2], h.2.symm⟩

/-- `ensureClosingCoordinates` on a `MultiPolygon` replaces its last
polygon. -/
theorem ensureClosing_multiPolygon (ps : List (List GeoRing)) (b : Bool)
    (g' : Geometry)
    (h : ensureClosingCoordinates (Geometry.multiPolygon ps) = some (b, g')) :
    ps ≠ [] ∧ ∃ y, g' = Geometry.multiPolygon (ps.dropLast ++ [y]) := by
  simp only [ensureClosingCoordinates, currentRing] at h
  cases hl : ps.getLast? with
  | none =>
      simp only [hl] at h
      cases h
  | some poly =>
      have hne : ps ≠ [] := by
        intro he
        rw [he] at hl
        cases hl
      cases hp : poly.getLast? with
      | none =>
          simp only [hl, hp] at h
          cases h
      | some ring =>
          simp only [hl, hp, Option.some.injEq, Prod.mk.injEq, setCurrentRing] at h
          exact ⟨hne, poly.dropLast ++ [(closeRing ring).2], h.2.symm⟩

/-- On a group-opening line, `endExaminer` always succeeds: it promotes a
`Polygon` (wrapping the existing rings) and opens a new polygon holding one
empty ring, moving to the ring-start state. -/
theorem step_intro_total (l : String) (f : Feature)
    (hi : isIntro Examiner.endE l = true) :
    step Examiner.endE l f =
      some (Examiner.polygonE, ⟨f.name, promoteThenOpen f.geometry⟩) := by
  have hi' : l ≠ END ∧ l.data.head? ≠ some SUBTRACT := by
    simpa [isIntro] using hi
  simp only [step, endExaminer, if_neg hi'.1, if_neg hi'.2]

/-- A successful non-group-opening step keeps the `Polygon` tag; a
group-opening step promotes, wrapping the rings built so far as the first
polygon and opening a second polygon with one empty ring. -/
theorem step_polygon_shape (st : Examiner) (l : String) (f : Feature)
    (rs : List GeoRing) (st' : Examiner) (f' : Feature)
    (hg : f.geometry = Geometry.polygon rs)
    (h : step st l f = some (st', f')) :
    (isIntro st l = true ∧ st' = Examiner.polygonE ∧
      f' = ⟨f.name, Geometry.multiPolygon [rs, [[]]]⟩) ∨
    (isIntro st l = false ∧ ∃ rs', f'.geometry = Geometry.polygon rs') := by
  cases st with
  | fileE =>
      refine Or.inr ⟨by simp [isIntro], ?_⟩
      simp only [step, fileExaminer] at h
      by_cases hl : l = ""
      · simp [hl] at h
      · rw [if_pos (hl : ¬ l = "")] at h
        simp only [Option.some.injEq, Prod.mk.injEq] at h
        exact ⟨rs, by rw [← h.2]; exact hg⟩
  | endE =>
      simp only [step, endExaminer] at h
      by_cases hE : l = END
      · refine Or.inr ⟨by simp [isIntro, hE], ?_⟩
        rw [if_pos hE] at h
        simp only [Option.some.injEq, Prod.mk.injEq] at h
        exact ⟨rs, by rw [← h.2]; exact hg⟩
      · by_cases hS : l.data.head? = some SUBTRACT
        · refine Or.inr ⟨by simp [isIntro, hS], ?_⟩
          rw [if_neg hE, if_pos hS, hg, pushEmptyRing_polygon] at h
          simp only [Option.map_some', Option.some.injEq, Prod.mk.injEq] at h
          exact ⟨rs ++ [[]], by rw [← h.2]⟩
        · rw [if_neg hE, if_neg hS] at h
          simp only [Option.some.injEq, Prod.mk.injEq] at h
          refine Or.inl ⟨by simp [isIntro, hE, hS], h.1.symm, ?_⟩
          rw [← h.2, hg]
          simp [promoteThenOpen, hg]
  | polygonE =>
      refine Or.inr ⟨by simp [isIntro], ?_⟩
      simp only [step, polygonExaminer] at h
      by_cases hE : l = END
      · rw [if_pos hE] at h
        simp only [Option.some.injEq, Prod.mk.injEq] at h
        exact ⟨rs, by rw [← h.2]; exact hg⟩
      · rw [if_neg hE] at h
        cases hrc : readCoordinatePair l f.geometry with
        | none =>
            rw [hrc] at h
            cases h
        | some pres =>
            obtain ⟨bb, g2⟩ := pres
            cases bb with
            | true =>
                rw [hrc] at h
                simp only [Option.some.injEq, Prod.mk.injEq] at h
                rw [hg] at hrc
                obtain ⟨rs', hrs⟩ := readCoordinatePair_polygon l rs true g2 hrc
                exact ⟨rs', by rw [← h.2]; simpa using hrs⟩
            | false =>
                rw [hrc] at h
                by_cases hne : l = ""
                · simp [hne] at h
                · rw [if_pos (hne : ¬ l = ""), hg, pushEmptyRing_polygon] at h
                  simp only [Option.map_some', Option.some.injEq, Prod.mk.injEq] at h
                  exact ⟨rs ++ [[]], by rw [← h.2]⟩
  | coordinateE =>
      refine Or.inr ⟨by simp [isIntro], ?_⟩
      simp only [step, coordinateExaminer] at h
      by_cases hE : l = END
      · rw [if_pos hE] at h
        cases hec : ensureClosingCoordinates f.geometry with
        | none =>
            rw [hec] at h
            cases h
        | some pres =>
            obtain ⟨bb, g2⟩ := pres
            cases bb with
            | false =>
                rw [hec] at h
                cases h
            | true =>
                rw [hec] at h
                simp only [Option.some.injEq, Prod.mk.injEq] at h
                rw [hg] at hec
                obtain ⟨rs', hrs⟩ := ensureClosing_polygon rs true g2 hec
                exact ⟨rs', by rw [← h.2]; simpa using hrs⟩
      · rw [if_neg hE] at h
        cases hrc : readCoordinatePair l f.geometry with
        | none =>
            rw [hrc] at h
            cases h
        | some pres =>
            obtain ⟨bb, g2⟩ := pres
            cases bb with
            | true =>
                rw [hrc] at h
                simp only [Option.some.injEq, Prod.mk.injEq] at h
                rw [hg] at hrc
                obtain ⟨rs', hrs⟩ := readCoordinatePair_polygon l rs true g2 hrc
                exact ⟨rs', by rw [← h.2]; simpa using hrs⟩
            | false =>
                rw [hrc] at h
                by_cases hne : l = ""
                · simp [hne] at h
                · rw [if_pos (hne : ¬ l = ""), hg, pushEmptyRing_polygon] at h
                  simp only [Option.map_some', Option.some.injEq, Prod.mk.injEq] at h
                  exact ⟨rs ++ [[]], by rw [← h.2]⟩

/-- A successful step on a `MultiPolygon` never changes the tag back and
never re-wraps: a group-opening line appends one new polygon `[[]]`, every
other line leaves the polygon list unchanged or replaces only its last
polygon. -/
theorem step_multiPolygon_shape (st : Examiner) (l : String) (f : Feature)
    (ps : List (List GeoRing)) (st' : Examiner) (f' : Feature)
    (hg : f.geometry = Geometry.multiPolygon ps)
    (h : step st l f = some (st', f')) :
    (isIntro st l = true ∧ st' = Examiner.polygonE ∧
      f' = ⟨f.name, Geometry.multiPolygon (ps ++ [[[]]])⟩) ∨
    (isIntro st l = false ∧
      (f'.geometry = Geometry.multiPolygon ps ∨
        (ps ≠ [] ∧ ∃ y, f'.geometry = Geometry.multiPolygon (ps.dropLast ++ [y])))) := by
  cases st with
  | fileE =>
      refine Or.inr ⟨by simp [isIntro], ?_⟩
      simp only [step, fileExaminer] at h
      by_cases hl : l = ""
      · simp [hl] at h
      · rw [if_pos (hl : ¬ l = "")] at h
        simp only [Option.some.injEq, Prod.mk.injEq] at h
        exact Or.inl (by rw [← h.2]; exact hg)
  | endE =>
      simp only [step, endExaminer] at h
      by_cases hE : l = END
      · refine Or.inr ⟨by simp [isIntro, hE], ?_⟩
        rw [if_pos hE] at h
        simp only [Option.some.injEq, Prod.mk.injEq] at h
        exact Or.inl (by rw [← h.2]; exact hg)
      · by_cases hS : l.data.head? = some SUBTRACT
        · refine Or.inr ⟨by simp [isIntro, hS], ?_⟩
          rw [if_neg hE, if_pos hS, hg] at h
          cases hpe : pushEmptyRing (Geometry.multiPolygon ps) with
          | none =>
              rw [hpe] at h
              cases h
          | some g2 =>
              rw [hpe] at h
              simp only [Option.map_some', Option.some.injEq, Prod.mk.injEq] at h
              obtain ⟨hne, y, hy⟩ := pushEmptyRing_multiPolygon ps g2 hpe
              exact Or.inr ⟨hne, y, by rw [← h.2]; simpa using hy⟩
        · rw [if_neg hE, if_neg hS] at h
          simp only [Option.some.injEq, Prod.mk.injEq] at h
          refine Or.inl ⟨by simp [isIntro, hE, hS], h.1.symm, ?_⟩
          rw [← h.2, hg]
          simp [promoteThenOpen, hg]
  | polygonE =>
      refine Or.inr ⟨by simp [isIntro], ?_⟩
      simp only [step, polygonExaminer] at h
      by_cases hE : l = END
      · rw [if_pos hE] at h
        simp only [Option.some.injEq, Prod.mk.injEq] at h
        exact Or.inl (by rw [← h.2]; exact hg)
      · rw [if_neg hE] at h
        cases hrc : readCoordinatePair l f.geometry with
        | none =>
            rw [hrc] at h
            cases h
        | some pres =>
            obtain ⟨bb, g2⟩ := pres
            cases bb with
            | true =>
                rw [hrc] at h
                simp only [Option.some.injEq, Prod.mk.injEq] at h
                rw [hg] at hrc
                rcases readCoordinatePair_multiPolygon l ps true g2 hrc with hy | ⟨hne, y, hy⟩
                · exact Or.inl (by rw [← h.2]; simpa using hy)
                · exact Or.inr ⟨hne, y, by rw [← h.2]; simpa using hy⟩
            | false =>
                rw [hrc] at h
                by_cases hne : l = ""
                · simp [hne] at h
                · rw [if_pos (hne : ¬ l = ""), hg] at h
                  cases hpe : pushEmptyRing (Geometry.multiPolygon ps) with
                  | none =>
                      rw [hpe] at h
                      cases h
                  | some g2 =>
                      rw [hpe] at h
                      simp only [Option.map_some', Option.some.injEq, Prod.mk.injEq] at h
                      obtain ⟨hne2, y, hy⟩ := pushEmptyRing_multiPolygon ps g2 hpe
                      exact Or.inr ⟨hne2, y, by rw [← h.2]; simpa using hy⟩
  | coordinateE =>
      refine Or.inr ⟨by simp [isIntro], ?_⟩
      simp only [step, coordinateExaminer] at h
      by_cases hE : l = END
      · rw [if_pos hE] at h
        cases hec : ensureClosingCoordinates f.geometry with
        | none =>
            rw [hec] at h
            cases h
        | some pres =>
            obtain ⟨bb, g2⟩ := pres
            cases bb with
            | false =>
                rw [hec] at h
                cases h
            | true =>
                rw [hec] at h
                simp only [Option.some.injEq, Prod.mk.injEq] at h
                rw [hg] at hec
                obtain ⟨hne, y, hy⟩ := ensureClosing_multiPolygon ps true g2 hec
                exact Or.inr ⟨hne, y, by rw [← h.2]; simpa using hy⟩
      · rw [if_neg hE] at h
        cases hrc : readCoordinatePair l f.geometry with
        | none =>
            rw [hrc] at h
            cases h
        | some pres =>
            obtain ⟨bb, g2⟩ := pres
            cases bb with
            | true =>
                rw [hrc] at h
                simp only [Option.some.injEq, Prod.mk.injEq] at h
                rw [hg] at hrc
                rcases readCoordinatePair_multiPolygon l ps true g2 hrc with hy | ⟨hne, y, hy⟩
                · exact Or.inl (by rw [← h.2]; simpa using hy)
                · exact Or.inr ⟨hne, y, by rw [← h.2]; simpa using hy⟩
            | false =>
                rw [hrc] at h
                by_cases hne : l = ""
                · simp [hne] at h
                · rw [if_pos (hne : ¬ l = ""), hg] at h
                  cases hpe : pushEmptyRing (Geometry.multiPolygon ps) with
                  | none =>
                      rw [hpe] at h
                      cases h
                  | some g2 =>
                      rw [hpe] at h
                      simp only [Option.map_some', Option.some.injEq, Prod.mk.injEq] at h
                      obtain ⟨hne2, y, hy⟩ := pushEmptyRing_multiPolygon ps g2 hpe
                      exact Or.inr ⟨hne2, y, by rw [← h.2]; simpa using hy⟩

/-- C4: the geometry starts as `Polygon` with no rings; a step promotes it
to `MultiPolygon` exactly when the step consumes a group-opening line (a
non-end-marker, non-subtract-marker line in the `endExaminer` state), and
the promotion wraps the ring sequence built so far, unchanged, as the first
polygon (a second polygon holding one empty ring is opened at once); a
geometry already `MultiPolygon` keeps its tag and is never re-wrapped — its
polygon list is left unchanged, extended by one polygon, or changed only in
its last entry.  Hence promotion happens exactly once, at the first
group-opening line. -/
theorem c4_promotion :
    initFeature.geometry = Geometry.polygon [] ∧
    (∀ st l f st' f' rs, f.geometry = Geometry.polygon rs →
      step st l f = some (st', f') →
      (((∃ ps, f'.geometry = Geometry.multiPolygon ps) ↔ isIntro st l = true) ∧
       (isIntro st l = true →
         st' = Examiner.polygonE ∧
         f' = ⟨f.name, Geometry.multiPolygon [rs, [[]]]⟩))) ∧
    (∀ st l f st' f' ps, f.geometry = Geometry.multiPolygon ps →
      step st l f = some (st', f') →
      ∃ ps', f'.geometry = Geometry.multiPolygon ps' ∧
        (ps' = ps ∨ ps' = ps ++ [[[]]] ∨
          (ps ≠ [] ∧ ∃ y, ps' = ps.dropLast ++ [y]))) := by
  refine ⟨rfl, ?_, ?_⟩
  · intro st l f st' f' rs hg h
    rcases step_polygon_shape st l f rs st' f' hg h with ⟨hi, hst, hf⟩ | ⟨hi, rs', hrs⟩
    · refine ⟨⟨fun _ => hi, fun _ => ⟨[rs, [[]]], by rw [hf]⟩⟩, fun _ => ⟨hst, hf⟩⟩
    · refine ⟨⟨?_, ?_⟩, ?_⟩
      · rintro ⟨ps, hps⟩
        rw [hrs] at hps
        cases hps
      · intro hit
        rw [hit] at hi
        simp at hi
      · intro hit
        rw [hit] at hi
        simp at hi
  · intro st l f st' f' ps hg h
    rcases step_multiPolygon_shape st l f ps st' f' hg h with ⟨hi, hst, hf⟩ | ⟨hi, hcase⟩
    · exact ⟨ps ++ [[[]]], by rw [hf], Or.inr (Or.inl rfl)⟩
    · rcases hcase with hy | ⟨hne, y, hy⟩
      · exact ⟨ps, hy, Or.inl rfl⟩
      · exact ⟨ps.dropLast ++ [y], hy, Or.inr (Or.inr ⟨hne, y, rfl⟩)⟩

/-- Concrete instance of `c4_promotion`: the line `"2"` after one closed
ring promotes the geometry, and the result is `MultiPolygon`. -/
theorem c4_promotion_witness :
    (∃ ps, (⟨some "n", Geometry.multiPolygon [[[]], [[]]]⟩ : Feature).geometry =
        Geometry.multiPolygon ps) ↔ isIntro Examiner.endE "2" = true :=
  (c4_promotion.2.1 Examiner.endE "2" ⟨some "n", Geometry.polygon [[]]⟩
      Examiner.polygonE ⟨some "n", Geometry.multiPolygon [[[]], [[]]]⟩ [[]]
      rfl (by decide)).1

/-- Replacing the last element of a list of length at least two keeps its
head. -/
theorem head?_dropLast_append {α : Type} (ps : List α) (y : α)
    (h2 : 2 ≤ ps.length) : (ps.dropLast ++ [y]).head? = ps.head? := by
  cases ps with
  | nil => simp at h2
  | cons a t =>
      cases t with
      | nil => simp at h2
      | cons b t2 => simp

/-- Replacing the last element of a non-empty list keeps its length. -/
theorem length_dropLast_append {α : Type} (ps : List α) (y : α)
    (hne : ps ≠ []) : (ps.dropLast ++ [y]).length = ps.length := by
  have : 1 ≤ ps.length := by
    cases ps with
    | nil => exact absurd rfl hne
    | cons a t => simp
  simp only [List.length_append, List.length_dropLast, List.length_cons,
    List.length_nil]
  omega

/-- A successful full run yields exactly that feature. -/
theorem runParse_eq_of_runSteps (ls : List String) (st : Examiner) (f : Feature)
    (hne : ls ≠ []) (h : runSteps Examiner.fileE initFeature ls = some (st, f)) :
    runParse ls = some f := by
  cases ls with
  | nil => exact absurd rfl hne
  | cons l t =>
      simp only [runParse]
      rw [h]
      rfl

/-- What `splitAtIntro` finds, starting from a `Polygon` geometry: the lines
before the first group-opening line run to the `endExaminer` state with the
tag still `Polygon`. -/
theorem splitAtIntro_spec (ls : List String) :
    ∀ st f rs pre i post, f.geometry = Geometry.polygon rs →
      splitAtIntro st f ls = some (pre, i, post) →
      ls = pre ++ i :: post ∧
      ∃ f1 rs1, runSteps st f pre = some (Examiner.endE, f1) ∧
        f1.geometry = Geometry.polygon rs1 ∧ isIntro Examiner.endE i = true := by
  induction ls with
  | nil =>
      intro st f rs pre i post hg h
      cases h
  | cons l rest ih =>
      intro st f rs pre i post hg h
      simp only [splitAtIntro] at h
      by_cases hi : isIntro st l = true
      · rw [if_pos hi] at h
        simp only [Option.some.injEq, Prod.mk.injEq] at h
        obtain ⟨hpre, hieq, hpost⟩ := h
        have hst : st = Examiner.endE := by
          have := hi
          simp only [isIntro, decide_eq_true_eq] at this
          exact this.1
        subst hst
        refine ⟨by rw [← hpre, ← hieq, ← hpost]; rfl, f, rs, ?_, hg, by rw [← hieq]; exact hi⟩
        rw [← hpre]
        rfl
      · rw [if_neg hi] at h
        cases hs : step st l f with
        | none =>
            rw [hs] at h
            cases h
        | some p =>
            obtain ⟨st2, f2⟩ := p
            simp only [hs] at h
            cases hsp : splitAtIntro st2 f2 rest with
            | none =>
                simp only [hsp] at h
                cases h
            | some x =>
                obtain ⟨x1, x2, x3⟩ := x
                simp only [hsp] at h
                simp only [Option.map_some', Option.some.injEq, Prod.mk.injEq] at h
                obtain ⟨hpre, hieq, hpost⟩ := h
                have hb : isIntro st l = false := by
                  simpa using hi
                rcases step_polygon_shape st l f rs st2 f2 hg hs with ⟨hit, _, _⟩ | ⟨_, rs2, hrs2⟩
                · rw [hit] at hb
                  simp at hb
                · obtain ⟨heq, f1, rs1, hrun1, hf1, hint⟩ :=
                    ih st2 f2 rs2 x1 x2 x3 hrs2 hsp
                  refine ⟨?_, f1, rs1, ?_, hf1, by rw [← hieq]; exact hint⟩
                  · rw [← hpre, ← hieq, ← hpost, heq]
                    rfl
                  · rw [← hpre]
                    simp only [runSteps, hs]
                    exact hrun1

/-- The group-opening lines of a run decompose around the first one that
`splitAtIntro` finds. -/
theorem splitAtIntro_count (ls : List String) :
    ∀ st f pre i post, splitAtIntro st f ls = some (pre, i, post) →
      ∀ st1 f1, runSteps st f pre = some (st1, f1) →
      ∀ st2 f2, step st1 i f1 = some (st2, f2) →
      introsFrom st f ls = 1 + introsFrom st2 f2 post := by
  induction ls with
  | nil =>
      intro st f pre i post h
      cases h
  | cons l rest ih =>
      intro st f pre i post h st1 f1 hrun st2 f2 hstep
      simp only [splitAtIntro] at h
      by_cases hi : isIntro st l = true
      · rw [if_pos hi] at h
        simp only [Option.some.injEq, Prod.mk.injEq] at h
        obtain ⟨hpre, hieq, hpost⟩ := h
        rw [← hpre] at hrun
        simp only [runSteps, Option.some.injEq, Prod.mk.injEq] at hrun
        rw [← hrun.1, ← hrun.2, ← hieq] at hstep
        simp only [introsFrom, hstep, if_pos hi]
        rw [hpost]
      · rw [if_neg hi] at h
        cases hs : step st l f with
        | none =>
            simp only [hs] at h
            cases h
        | some p =>
            obtain ⟨stm, fm⟩ := p
            simp only [hs] at h
            cases hsp : splitAtIntro stm fm rest with
            | none =>
                simp only [hsp] at h
                cases h
            | some x =>
                obtain ⟨x1, x2, x3⟩ := x
                simp only [hsp, Option.map_some', Option.some.injEq, Prod.mk.injEq] at h
                obtain ⟨hpre, hieq, hpost⟩ := h
                rw [← hpre] at hrun
                simp only [runSteps, hs] at hrun
                have hb : isIntro st l = false := by simpa using hi
                rw [← hieq] at hstep
                have := ih stm fm x1 x2 x3 hsp st1 f1 hrun st2 f2 hstep
                simp only [introsFrom, hs, hb, if_false, Bool.false_eq_true]
                rw [hpost] at this
                omega

/-- When at least one group-opening line is consumed, `splitAtIntro` finds
the first one. -/
theorem splitAtIntro_of_introsFrom (ls : List String) :
    ∀ st f, 1 ≤ introsFrom st f ls →
      ∃ pre i post, splitAtIntro st f ls = some (pre, i, post) := by
  induction ls with
  | nil =>
      intro st f h
      simp [introsFrom] at h
  | cons l rest ih =>
      intro st f h
      simp only [introsFrom] at h
      cases hs : step st l f with
      | none =>
          rw [hs] at h
          simp at h
      | some p =>
          obtain ⟨st2, f2⟩ := p
          rw [hs] at h
          by_cases hi : isIntro st l = true
          · exact ⟨[], l, rest, by simp only [splitAtIntro, if_pos hi]⟩
          · have hb : isIntro st l = false := by simpa using hi
            rw [hb] at h
            simp only [if_false, Bool.false_eq_true, Nat.zero_add] at h
            obtain ⟨pre, i, post, hsp⟩ := ih st2 f2 h
            refine ⟨l :: pre, i, post, ?_⟩
            simp only [splitAtIntro, if_neg hi, hs, hsp, Option.map_some']

/-- Running from a promoted geometry with at least two polygons: the tag
stays `MultiPolygon`, the first polygon never changes, and the polygon count
grows by exactly the number of group-opening lines consumed. -/
theorem runSteps_mp_invariant (ls : List String) :
    ∀ st f ps st2 f2, f.geometry = Geometry.multiPolygon ps → 2 ≤ ps.length →
      runSteps st f ls = some (st2, f2) →
      ∃ ps2, f2.geometry = Geometry.multiPolygon ps2 ∧
        ps2.length = ps.length + introsFrom st f ls ∧ ps2.head? = ps.head? := by
  induction ls with
  | nil =>
      intro st f ps st2 f2 hg h2 h
      simp only [runSteps, Option.some.injEq, Prod.mk.injEq] at h
      exact ⟨ps, by rw [← h.2]; exact hg, by simp [introsFrom], rfl⟩
  | cons l rest ih =>
      intro st f ps st2 f2 hg h2 h
      simp only [runSteps] at h
      cases hs : step st l f with
      | none =>
          rw [hs] at h
          cases h
      | some p =>
          obtain ⟨stm, fm⟩ := p
          rw [hs] at h
          rcases step_multiPolygon_shape st l f ps stm fm hg hs with
            ⟨hi, hstm, hfm⟩ | ⟨hi, hcase⟩
          · have hg' : fm.geometry = Geometry.multiPolygon (ps ++ [[[]]]) := by rw [hfm]
            have h2' : 2 ≤ (ps ++ [[[]]]).length := by
              simp only [List.length_append, List.length_cons, List.length_nil]
              omega
            obtain ⟨ps2, hps2, hlen, hhead⟩ := ih stm fm (ps ++ [[[]]]) st2 f2 hg' h2' h
            refine ⟨ps2, hps2, ?_, ?_⟩
            · simp only [introsFrom, hs, hi, if_true]
              simp only [List.length_append, List.length_cons, List.length_nil] at hlen
              omega
            · rw [hhead]
              cases ps with
              | nil => simp at h2
              | cons a t => simp
          · rcases hcase with hy | ⟨hne, y, hy⟩
            · obtain ⟨ps2, hps2, hlen, hhead⟩ := ih stm fm ps st2 f2 hy h2 h
              refine ⟨ps2, hps2, ?_, hhead⟩
              simp only [introsFrom, hs, hi, if_false, Bool.false_eq_true]
              omega
            · have h2' : 2 ≤ (ps.dropLast ++ [y]).length := by
                rw [length_dropLast_append ps y hne]
                exact h2
              obtain ⟨ps2, hps2, hlen, hhead⟩ :=
                ih stm fm (ps.dropLast ++ [y]) st2 f2 hy h2' h
              refine ⟨ps2, hps2, ?_, ?_⟩
              · rw [length_dropLast_append ps y hne] at hlen
                simp only [introsFrom, hs, hi, if_false, Bool.false_eq_true]
                omega
              · rw [hhead, head?_dropLast_append ps y h2]

/-- C5: on a successfully parsed input with two or more outer-ring groups,
the output geometry is `MultiPolygon` with exactly one polygon entry per
outer-ring group, and its first entry equals the ring sequence produced by
parsing the first group alone as a single-polygon input — the name line,
that group's lines, and a final end marker. -/
theorem c5_one_polygon_per_group (lines rest0 : List String) (name : String)
    (f : Feature)
    (hlines : lines = name :: rest0)
    (hrun : runParse lines = some f)
    (hcount : 2 ≤ outerGroupCount lines) :
    ∃ pre i post g1 f1 rs1 ps,
      splitAtIntro Examiner.fileE initFeature lines = some (pre, i, post) ∧
      pre = name :: g1 ∧
      runParse (name :: (g1 ++ [END])) = some f1 ∧
      f1.geometry = Geometry.polygon rs1 ∧
      f.geometry = Geometry.multiPolygon ps ∧
      ps.length = outerGroupCount lines ∧
      ps.head? = some rs1 := by
  have hone : 1 ≤ introsFrom Examiner.fileE initFeature lines := by
    unfold outerGroupCount at hcount
    omega
  obtain ⟨pre, i, post, hsp⟩ :=
    splitAtIntro_of_introsFrom lines Examiner.fileE initFeature hone
  obtain ⟨hdecomp, f1, rs1, hpre, hf1, hint⟩ :=
    splitAtIntro_spec lines Examiner.fileE initFeature [] pre i post rfl hsp
  obtain ⟨g1, hg1⟩ : ∃ g1, pre = name :: g1 := by
    cases pre with
    | nil =>
        simp only [runSteps, Option.some.injEq, Prod.mk.injEq] at hpre
        cases hpre.1
    | cons p0 t =>
        have hd2 := hdecomp
        rw [hlines, List.cons_append] at hd2
        injection hd2 with h1 h2
        exact ⟨t, by rw [h1]⟩
  have hstep : step Examiner.endE i f1 =
      some (Examiner.polygonE, ⟨f1.name, promoteThenOpen f1.geometry⟩) :=
    step_intro_total i f1 hint
  have hpromote : (⟨f1.name, promoteThenOpen f1.geometry⟩ : Feature).geometry =
      Geometry.multiPolygon [rs1, [[]]] := by
    simp [promoteThenOpen, hf1]
  obtain ⟨stF, hrsF⟩ : ∃ stF, runSteps Examiner.fileE initFeature lines = some (stF, f) := by
    rw [hlines] at hrun
    simp only [runParse] at hrun
    cases hq : runSteps Examiner.fileE initFeature (name :: rest0) with
    | none =>
        rw [hq] at hrun
        cases hrun
    | some q =>
        rw [hq] at hrun
        simp only [Option.map_some', Option.some.injEq] at hrun
        refine ⟨q.1, ?_⟩
        rw [hlines, hq, ← hrun]
  rw [hdecomp, runSteps_append, hpre] at hrsF
  simp only [runSteps, hstep] at hrsF
  have h2 : 2 ≤ ([rs1, [[]]] : List (List GeoRing)).length := by simp
  obtain ⟨ps2, hps2, hlen, hhead⟩ :=
    runSteps_mp_invariant post Examiner.polygonE
      ⟨f1.name, promoteThenOpen f1.geometry⟩ [rs1, [[]]] stF f hpromote h2 hrsF
  have hcnt : introsFrom Examiner.fileE initFeature lines =
      1 + introsFrom Examiner.polygonE ⟨f1.name, promoteThenOpen f1.geometry⟩ post :=
    splitAtIntro_count lines Examiner.fileE initFeature pre i post hsp
      Examiner.endE f1 hpre Examiner.polygonE ⟨f1.name, promoteThenOpen f1.geometry⟩ hstep
  have hsingle : runParse (name :: (g1 ++ [END])) = some f1 := by
    have hne : (name :: (g1 ++ [END])) ≠ [] := by simp
    apply runParse_eq_of_runSteps _ Examiner.endE f1 hne
    have heq : name :: (g1 ++ [END]) = pre ++ [END] := by
      rw [hg1]
      rfl
    rw [heq, runSteps_append, hpre]
    simp [runSteps, step, endExaminer]
  refine ⟨pre, i, post, g1, f1, rs1, ps2, hsp, hg1, hsingle, hf1, hps2, ?_,
    by rw [hhead]; simp⟩
  unfold outerGroupCount
  rw [hcnt]
  simp only [List.length_cons, List.length_nil] at hlen
  omega

/-- A two-group input: one outer ring, then a second outer-ring group. -/
def twoGroupInput : List String :=
  ["n", "1", " 1  0.0  0.0", " 2  1.0  0.0", " 3  1.0  1.0", "END",
   "2", " 1  5.0  5.0", " 2  6.0  5.0", " 3  6.0  6.0", "END", "END"]

/-- The feature returned for `twoGroupInput`. -/
def twoGroupOutput : Feature :=
  { name := some "n",
    geometry := Geometry.multiPolygon
      [[[(JNum.fin ⟨0, 1⟩, JNum.fin ⟨0, 1⟩), (JNum.fin ⟨10, 1⟩, JNum.fin ⟨0, 1⟩),
         (JNum.fin ⟨10, 1⟩, JNum.fin ⟨10, 1⟩), (JNum.fin ⟨0, 1⟩, JNum.fin ⟨0, 1⟩)]],
       [[(JNum.fin ⟨50, 1⟩, JNum.fin ⟨50, 1⟩), (JNum.fin ⟨60, 1⟩, JNum.fin ⟨50, 1⟩),
         (JNum.fin ⟨60, 1⟩, JNum.fin ⟨60, 1⟩), (JNum.fin ⟨50, 1⟩, JNum.fin ⟨50, 1⟩)]]] }

/-- Concrete instance of `c5_one_polygon_per_group` on `twoGroupInput`. -/
theorem c5_one_polygon_per_group_witness :
    ∃ pre i post g1 f1 rs1 ps,
      splitAtIntro Examiner.fileE initFeature twoGroupInput = some (pre, i, post) ∧
      pre = "n" :: g1 ∧
      runParse ("n" :: (g1 ++ [END])) = some f1 ∧
      f1.geometry = Geometry.polygon rs1 ∧
      twoGroupOutput.geometry = Geometry.multiPolygon ps ∧
      ps.length = outerGroupCount twoGroupInput ∧
      ps.head? = some rs1 :=
  c5_one_polygon_per_group twoGroupInput
    ["1", " 1  0.0  0.0", " 2  1.0  0.0", " 3  1.0  1.0", "END",
     "2", " 1  5.0  5.0", " 2  6.0  5.0", " 3  6.0  6.0", "END", "END"]
    "n" twoGroupOutput rfl (by decide) (by decide)
